import Mathlib

/-!
Shallow embedding of the search-criteria compiler and field directory of
`glpi_api.py` (class `GLPI`): `_map_fields`, `field_id`, `field_uid`,
`_add_forcedisplay`, `_add_criteria`, the criteria-preparation and response
handling of `search`.

Python values that flow through this code (JSON payloads, criteria dicts)
are modelled by `PyVal`; Python `dict`s are association lists with Python's
insertion semantics (assignment to an existing key updates the value in
place and keeps the key's position, otherwise the pair is appended); keys of
the dicts this code manipulates are strings.  Fallible code returns
`Except Err`; `Err` distinguishes the module's own `GLPIError` from the
Python builtin exceptions (`KeyError`, `TypeError`, `AttributeError`) that
the code can also raise.
-/

/-- Model of the Python values handled by the criteria compiler: strings,
integers, booleans, lists and string-keyed dicts. A Python `tuple` or `set`
argument is modelled by `list` as well (the code only tests membership in
`(list, tuple, set)` and iterates). -/
inductive PyVal where
  | str (s : String)
  | int (n : Int)
  | bool (b : Bool)
  | list (xs : List PyVal)
  | dict (d : List (String × PyVal))
deriving Repr

/-- Python dicts with string keys, as ordered association lists. -/
abbrev Dict := List (String × PyVal)

/-- Dict lookup (`d[k]` / `k in d`), first matching key (keys are unique in
dicts built by this development). -/
def dlookup {α : Type} : List (String × α) → String → Option α
  | [], _ => none
  | (k, v) :: rest, key => if k = key then some v else dlookup rest key

/-- Python `d[k] = v`: replace the value in place if the key is present,
else append the pair at the end. -/
def dinsert {α : Type} (m : List (String × α)) (k : String) (v : α) :
    List (String × α) :=
  if (m.map Prod.fst).contains k then
    m.map (fun p => if p.1 = k then (k, v) else p)
  else m ++ [(k, v)]

/-- Python `d.update(e)`: insert every pair of `e` into `d`, in order. -/
def dupdate {α : Type} (m e : List (String × α)) : List (String × α) :=
  e.foldl (fun acc p => dinsert acc p.1 p.2) m

/-- Python `d.get(k, default)`. -/
def dget {α : Type} (m : List (String × α)) (k : String) (dflt : α) : α :=
  (dlookup m k).getD dflt

/-- Python `d.pop(k, default)` leaves a dict without the key. -/
def dremove {α : Type} (m : List (String × α)) (k : String) :
    List (String × α) :=
  m.filter (fun p => p.1 ≠ k)

mutual

/-- Python `repr` of a value, as used by `str` on lists and dicts.  String
`repr` is approximated by unconditional single quotes. -/
def reprOf : PyVal → String
  | .str s => "'" ++ s ++ "'"
  | .int n => toString n
  | .bool b => if b then "True" else "False"
  | .list xs => "[" ++ reprList xs ++ "]"
  | .dict d => "\x7b" ++ reprItems d ++ "\x7d"

/-- Comma-separated `repr` of list elements. -/
def reprList : List PyVal → String
  | [] => ""
  | [x] => reprOf x
  | x :: rest => reprOf x ++ ", " ++ reprList rest

/-- Comma-separated `repr` of dict items. -/
def reprItems : List (String × PyVal) → String
  | [] => ""
  | [(k, v)] => "'" ++ k ++ "'" ++ ": " ++ reprOf v
  | (k, v) :: rest => "'" ++ k ++ "'" ++ ": " ++ reprOf v ++ ", " ++ reprItems rest

end

/-- Python `str()` of a value (`str` and containers differ from `repr` only
at the top level for strings). -/
def strOf : PyVal → String
  | .str s => s
  | v => reprOf v

/-- Python `str(type(v))`. -/
def pyTypeName : PyVal → String
  | .str _ => "<class 'str'>"
  | .int _ => "<class 'int'>"
  | .bool _ => "<class 'bool'>"
  | .list _ => "<class 'list'>"
  | .dict _ => "<class 'dict'>"

/-- Whether the value is one of the sequence types accepted by
`_add_criteria`'s `isinstance(criteria, (list, tuple, set))` check
(tuples and sets are modelled by `PyVal.list`). -/
def isSeq : PyVal → Bool
  | .list _ => true
  | _ => false

/-- Model of Python's `re.match` against the pattern of one or more digits
anchored at both ends, as used by `field_id`: the string is non-empty and
all digits, tolerating one trailing newline (Python's end anchor also
matches just before a final newline).  Digits are modelled over ASCII. -/
def pyFullDigits (s : String) : Bool :=
  let l := s.toList
  let core := if l.getLast? = some '\n' then l.dropLast else l
  core.length > 0 && core.all Char.isDigit

/-- Python `s.replace` doubling every single quote, as applied by
`_add_criteria` to string criterion values. -/
def escapeQuotes (s : String) : String :=
  String.mk (s.toList.foldr
    (fun c acc => if c = '\'' then '\'' :: '\'' :: acc else c :: acc) [])

/-- The value transformation `_add_criteria` applies to a non-`field`
criterion attribute: strings have every single quote doubled, any other
value passes through unchanged. -/
def escapeVal : PyVal → PyVal
  | .str s => .str (escapeQuotes s)
  | v => v

/-- Exceptions the embedded code can raise: the module's own `GLPIError`
(`raise GLPIError(msg)` / `_raise`), and the Python builtins `KeyError`
(failed `d[k]`), `TypeError` and `AttributeError` that the unguarded code
paths raise. -/
inductive Err where
  | glpiError (msg : String)
  | keyError (key : String)
  | typeError (msg : String)
  | attributeError (msg : String)
deriving Repr, DecidableEq

/-- A field descriptor of the metadata listing (`list_search_options`
result value): a JSON object. -/
abbrev Desc := List (String × PyVal)

/-- Model of `re.sub('^{:s}.'.format(itemtype), '', uid)` in `_map_fields`
for an `itemtype` without regex metacharacters: if `uid` starts with
`itemtype` followed by at least one more character, that prefix and one
character are removed -- the separator in the pattern is an unescaped `.`,
a regex wildcard matching any character except a newline. -/
def stripUid (itemtype uid : String) : String :=
  let it := itemtype.toList
  let u := uid.toList
  match u.drop it.length with
  | [] => uid
  | c :: rest => if u.take it.length = it ∧ c ≠ '\n' then String.mk rest else uid

/-- Model of `GLPI._map_fields`: from the metadata listing (a JSON object
mapping the numeric field key, a string, to a field descriptor), build the
mapping from the descriptor's `uid` stripped by `stripUid` to the numeric
field key, keeping only descriptors with a `uid` attribute.  A present but
non-string `uid` would raise `TypeError` in Python; the model skips it and
is only used under the hypothesis that present uids are strings. -/
def map_fields (itemtype : String) (listing : List (String × Desc)) :
    List (String × String) :=
  listing.foldl
    (fun m fd =>
      match dlookup fd.2 "uid" with
      | some (PyVal.str u) => dinsert m (stripUid itemtype u) fd.1
      | _ => m)
    []

/-- The `_fields` cache attribute of a `GLPI` instance: per itemtype, the
mapping built by `map_fields`. -/
structure FDState where
  fields : List (String × List (String × String))
deriving Repr, DecidableEq

/-- The remote `listSearchOptions` metadata, per itemtype (the JSON body a
successful `list_search_options` call returns). -/
abbrev Listing := String → List (String × Desc)

/-- The cache handling shared by `field_id` and `field_uid`: return the
cached mapping for `itemtype`, fetching and storing it when the itemtype
is not cached or `refresh` is set.  The third component records whether a
metadata fetch (a network call) happened. -/
def fetchFields (opts : Listing) (st : FDState) (itemtype : String)
    (refresh : Bool) : List (String × String) × FDState × Bool :=
  match dlookup st.fields itemtype with
  | some m =>
    if refresh then
      let m2 := map_fields itemtype (opts itemtype)
      (m2, ⟨dinsert st.fields itemtype m2⟩, true)
    else (m, st, false)
  | none =>
    let m2 := map_fields itemtype (opts itemtype)
    (m2, ⟨dinsert st.fields itemtype m2⟩, true)

/-- Model of `GLPI.field_id`: if `str(field_uid)` is all digits, return it
as a string without touching the cache or the network; otherwise resolve
through the (possibly refreshed) cached mapping, raising `KeyError` when
the key is absent. -/
def field_id (opts : Listing) (st : FDState) (itemtype : String)
    (fuid : PyVal) (refresh : Bool) : Except Err (String × FDState × Bool) :=
  if pyFullDigits (strOf fuid) then .ok (strOf fuid, st, false)
  else
    let (m, st2, fetched) := fetchFields opts st itemtype refresh
    match dlookup m (strOf fuid) with
    | some fid => .ok (fid, st2, fetched)
    | none => .error (.keyError (strOf fuid))

/-- The reversed mapping `field_uid` builds: `{value: key for key, value in
m.items()}` -- for duplicate values the later key wins. -/
def revMap (m : List (String × String)) : List (String × String) :=
  m.foldl (fun acc kv => dinsert acc kv.2 kv.1) []

/-- Model of `GLPI.field_uid`: resolve a numeric field id back to the field
uid through the reversed cached mapping, raising `KeyError` when
`str(field_id)` is not a value of the mapping. -/
def field_uid (opts : Listing) (st : FDState) (itemtype : String)
    (fid : PyVal) (refresh : Bool) : Except Err (String × FDState × Bool) :=
  let (m, st2, fetched) := fetchFields opts st itemtype refresh
  match dlookup (revMap m) (strOf fid) with
  | some uid => .ok (uid, st2, fetched)
  | none => .error (.keyError (strOf fid))

/-- Model of `GLPI._add_forcedisplay`: `forcedisplay[idx]` parameters from
the field identifiers, each resolved by `field_id`. -/
def add_forcedisplay (opts : Listing) (itemtype : String) :
    List PyVal → Nat → Dict → FDState → Except Err (Dict × FDState)
  | [], _, acc, st => .ok (acc, st)
  | f :: rest, idx, acc, st =>
    match field_id opts st itemtype f false with
    | .error e => .error e
    | .ok (r, st2, _) =>
      add_forcedisplay opts itemtype rest (idx + 1)
        (dinsert acc ("forcedisplay[" ++ toString idx ++ "]") (.str r)) st2

/-- The bracketed key of the criterion at position `idx` under `parent`
(`criteria[idx]` at top level, `parent[criteria][idx]` below). -/
def critKey (parent : Option String) (idx : Nat) : String :=
  match parent with
  | none => "criteria[" ++ toString idx ++ "]"
  | some p => p ++ "[criteria][" ++ toString idx ++ "]"

/-- The flat parameter key of attribute `p` of the criterion at `key`. -/
def attrKey (key p : String) : String := key ++ "[" ++ p ++ "]"

/-- The dict comprehension of `_add_criteria` over `criterion.items()`:
every attribute other than `criteria` becomes a flat parameter keyed
`attrKey`, the `field` attribute resolved by `field_id` and every other
value escaped by `escapeVal`.  The cache state threads through the
`field_id` calls in iteration order. -/
def compileAttrs (opts : Listing) (itemtype key : String) :
    List (String × PyVal) → Dict → FDState → Except Err (Dict × FDState)
  | [], acc, st => .ok (acc, st)
  | (p, v) :: rest, acc, st =>
    if p = "criteria" then compileAttrs opts itemtype key rest acc st
    else if p = "field" then
      match field_id opts st itemtype v false with
      | .error e => .error e
      | .ok (r, st2, _) =>
        compileAttrs opts itemtype key rest (dinsert acc (attrKey key p) (.str r)) st2
    else compileAttrs opts itemtype key rest (dinsert acc (attrKey key p) (escapeVal v)) st

mutual

/-- Model of `GLPI._add_criteria`: a non-sequence argument raises
`GLPIError`; a sequence is compiled criterion by criterion. -/
def add_criteria (opts : Listing) (itemtype : String) (criteria : PyVal)
    (parent : Option String) (st : FDState) : Except Err (Dict × FDState) :=
  match criteria with
  | .list cs => addCriteriaList opts itemtype cs 0 parent [] st
  | v => .error (.glpiError ("search criteria should be a list, found: " ++ pyTypeName v))
termination_by sizeOf criteria
decreasing_by
simp_wf

/-- The `for idx, criterion in enumerate(criteria)` loop of
`_add_criteria`: for each criterion, first recurse into its `criteria`
sub-sequence (default `[]`) under the criterion's key, merge those
parameters, then merge the criterion's own attributes; a criterion that is
not a dict raises `AttributeError` (no `get` method). -/
def addCriteriaList (opts : Listing) (itemtype : String) (cs : List PyVal)
    (idx : Nat) (parent : Option String) (params : Dict) (st : FDState) :
    Except Err (Dict × FDState) :=
  match cs with
  | [] => .ok (params, st)
  | c :: rest =>
    let key := critKey parent idx
    match c with
    | .dict attrs =>
      match add_criteria opts itemtype (dget attrs "criteria" (.list [])) (some key) st with
      | .error e => .error e
      | .ok (subP, st1) =>
        match compileAttrs opts itemtype key attrs [] st1 with
        | .error e => .error e
        | .ok (own, st2) =>
          addCriteriaList opts itemtype rest (idx + 1) parent
            (dupdate (dupdate params subP) own) st2
    | v => .error (.attributeError (pyTypeName v ++ " object has no attribute get"))
termination_by sizeOf cs
decreasing_by
have h : ∀ (l : List (String × PyVal)),
    sizeOf (dget l "criteria" (PyVal.list [])) ≤ 2 + sizeOf l := by
  intro l
  induction l with
  | nil => simp [dget, dlookup]
  | cons x r ih =>
    obtain ⟨xk, xv⟩ := x
    by_cases hk : xk = "criteria" <;>
      simp [dget, dlookup, hk] at ih ⊢ <;> omega
have h2 := h attrs
have h3 : 0 < sizeOf rest := by cases rest <;> simp
simp_wf
omega
simp
end

/-- The `for criterion in kwargs.pop('metacriteria', [])` loop of
`GLPI.search`: each metacriterion gets `meta = True` and is appended to the
criteria value.  A non-dict metacriterion does not support item assignment
(TypeError); appending to a non-list criteria value raises
`AttributeError`. -/
def metaLoop (criteria : PyVal) : List PyVal → Except Err PyVal
  | [] => .ok criteria
  | m :: rest =>
    match m with
    | .dict d =>
      match criteria with
      | .list cs => metaLoop (.list (cs ++ [.dict (dinsert d "meta" (.bool true))])) rest
      | v => .error (.attributeError (pyTypeName v ++ " object has no attribute append"))
    | v => .error (.typeError (pyTypeName v ++ " does not support item assignment"))

/-- Model of the parameter assembly of `GLPI.search` before the request is
sent: pop `forcedisplay` (default `[]`) and compile it, pop `criteria` and
`metacriteria` (defaults `[]`), run the metacriteria loop, compile the
resulting criteria, then merge the remaining keyword arguments unchanged.
A non-list `forcedisplay` or `metacriteria` value is modelled as a
TypeError (Python would iterate a string or dict element-wise; no claim
depends on those inputs). -/
def search_params (opts : Listing) (itemtype : String) (kwargs : Dict)
    (st : FDState) : Except Err (Dict × FDState) :=
  match dget kwargs "forcedisplay" (.list []) with
  | .list fds =>
    match add_forcedisplay opts itemtype fds 0 [] st with
    | .error e => .error e
    | .ok (fdP, st1) =>
      let critv := dget kwargs "criteria" (.list [])
      match dget kwargs "metacriteria" (.list []) with
      | .list ms =>
        match metaLoop critv ms with
        | .error e => .error e
        | .ok crit2 =>
          match add_criteria opts itemtype crit2 none st1 with
          | .error e => .error e
          | .ok (critP, st2) =>
            let rest := dremove (dremove (dremove kwargs "forcedisplay") "criteria") "metacriteria"
            .ok (dupdate (dupdate (dupdate [] fdP) critP) rest, st2)
      | v => .error (.typeError (pyTypeName v ++ " object is not iterable"))
  | v => .error (.typeError (pyTypeName v ++ " object is not iterable"))

/-- An HTTP response as the dispatch tables of this module consume it:
status code, parsed JSON body, reason phrase and raw text. -/
structure Response where
  status : Nat
  json : PyVal
  reason : String
  text : String

/-- Model of `_glpi_error`: raise `GLPIError` with the two-element error
payload formatted as `(code) message` (extra elements beyond two are
ignored by `format`).  A payload of another shape raises a different
builtin error in Python; no claim reaches that branch. -/
def glpi_err (r : Response) : Except Err PyVal :=
  match r.json with
  | .list (a :: b :: _) => .error (.glpiError ("(" ++ strOf a ++ ") " ++ strOf b))
  | v => .error (.typeError (pyTypeName v ++ " cannot be unpacked"))

/-- Model of `_unknown_error`: raise `GLPIError` with status, reason and
body text. -/
def unknown_err (r : Response) : Except Err PyVal :=
  .error (.glpiError
    ("unknown error: [" ++ toString r.status ++ "/" ++ r.reason ++ "] " ++ r.text))

/-- Model of the response dispatch of `GLPI.search`: 200 and 206 return
`response.json().get('data', [])`, 400 and 401 raise through
`_glpi_error`, any other status through `_unknown_error`.  A success body
that is not a JSON object has no `get` method (AttributeError). -/
def search_return (r : Response) : Except Err PyVal :=
  if r.status = 200 ∨ r.status = 206 then
    match r.json with
    | .dict d => .ok (dget d "data" (.list []))
    | v => .error (.attributeError (pyTypeName v ++ " object has no attribute get"))
  else if r.status = 400 ∨ r.status = 401 then glpi_err r
  else unknown_err r

/-- Heap read for the object-level model of the metacriteria loop: the
store holds the dict objects, an address is an index. -/
def storeGet : List Dict → Nat → Dict
  | [], _ => []
  | d :: _, 0 => d
  | _ :: rest, a + 1 => storeGet rest a

/-- Heap write for the object-level model of the metacriteria loop. -/
def storeSet : List Dict → Nat → Dict → List Dict
  | [], _, _ => []
  | _ :: rest, 0, d => d :: rest
  | x :: rest, a + 1, d => x :: storeSet rest a d

/-- The metacriteria loop of `GLPI.search` at the object level, with dicts
as addressed store objects: `criterion['meta'] = True` mutates the dict
object in place in the store, and `criteria.append(criterion)` appends
that same object (its address) to the caller's criteria list. -/
def metaTagLoop (store : List Dict) (crit metas : List Nat) :
    List Dict × List Nat :=
  match metas with
  | [] => (store, crit)
  | a :: rest =>
    metaTagLoop
      (storeSet store a (dinsert (storeGet store a) "meta" (.bool true)))
      (crit ++ [a]) rest

/-- The parameter keys the comprehension of `_add_criteria` emits for one
criterion's attribute list at the criterion key `key`. -/
def ownKeys (key : String) (attrs : List (String × PyVal)) : List String :=
  attrs.filterMap
    (fun pv => if pv.1 = "criteria" then none else some (attrKey key pv.1))

/-- The parameter keys of a flat (unnested) criteria sequence from
position `idx` under `parent`: one group of `attrKey` keys per criterion,
in input order. -/
def flatKeys (parent : Option String) (idx : Nat) :
    List (List (String × PyVal)) → List String
  | [] => []
  | attrs :: rest => ownKeys (critKey parent idx) attrs ++ flatKeys parent (idx + 1) rest

/-- The parameter keys of a two-level criteria sequence: each element
pairs a criterion's attribute list with the attribute lists of its flat
sub-criteria; the sub-criterion keys come first because `_add_criteria`
merges the recursion's parameters before the criterion's own. -/
def twoLevelKeys (idx : Nat) :
    List (List (String × PyVal) × List (List (String × PyVal))) → List String
  | [] => []
  | (attrs, subs) :: rest =>
    flatKeys (some (critKey none idx)) 0 subs
      ++ (ownKeys (critKey none idx) attrs ++ twoLevelKeys (idx + 1) rest)

/-- A criterion dict with the given attributes and a `criteria` key
holding the given flat sub-criteria. -/
def mkNested (attrs : List (String × PyVal))
    (subs : List (List (String × PyVal))) : PyVal :=
  .dict (attrs ++ [("criteria", .list (subs.map PyVal.dict))])

/-- The per-descriptor reading of `map_fields`: one entry per descriptor
with a string `uid`, keyed by the stripped uid, in listing order.
`map_fields` agrees with it exactly when the stripped keys are pairwise
distinct (a Python dict comprehension collapses duplicate keys). -/
def mapFieldsSpec (itemtype : String) (listing : List (String × Desc)) :
    List (String × String) :=
  listing.filterMap
    (fun fd =>
      match dlookup fd.2 "uid" with
      | some (PyVal.str u) => some (stripUid itemtype u, fd.1)
      | _ => none)

/-- Whether an exception is the module's own `GLPIError` (the only
exception class `glpi_api.py` defines; the Python builtins are not part of
the module's error taxonomy). -/
def isModuleError : Err → Bool
  | .glpiError _ => true
  | _ => false

/-- Membership with unique keys determines `dlookup`. -/
theorem dlookup_of_mem {α : Type} {m : List (String × α)} {k : String} {v : α}
    (hn : (m.map Prod.fst).Nodup) (hm : (k, v) ∈ m) : dlookup m k = some v := by
  induction m with
  | nil => cases hm
  | cons x rest ih =>
    obtain ⟨xk, xv⟩ := x
    simp only [List.map_cons, List.nodup_cons] at hn
    rcases List.mem_cons.mp hm with h | h
    · obtain ⟨h1, h2⟩ := Prod.mk.injEq .. ▸ h
      simp [dlookup, h1.symm, h2]
    · have hne : xk ≠ k := by
        intro he
        exact hn.1 (he ▸ List.mem_map.mpr ⟨(k, v), h, rfl⟩)
      simp [dlookup, hne, ih hn.2 h]

/-- A key not present looks up to `none`. -/
theorem dlookup_eq_none {α : Type} {m : List (String × α)} {k : String}
    (h : k ∉ m.map Prod.fst) : dlookup m k = none := by
  induction m with
  | nil => rfl
  | cons x rest ih =>
    obtain ⟨xk, xv⟩ := x
    simp only [List.map_cons, List.mem_cons] at h
    push_neg at h
    have hne : ¬ xk = k := fun he => h.1 he.symm
    simp [dlookup, hne, ih h.2]

/-- Inserting a fresh key appends the pair. -/
theorem dinsert_fresh {α : Type} {m : List (String × α)} {k : String} {v : α}
    (h : k ∉ m.map Prod.fst) : dinsert m k v = m ++ [(k, v)] := by
  rw [dinsert, if_neg]
  simpa using h

/-- Updating with the empty dict changes nothing. -/
theorem dupdate_nil {α : Type} (m : List (String × α)) : dupdate m [] = m := rfl

/-- Updating with a dict of fresh, pairwise-distinct keys appends it. -/
theorem dupdate_append {α : Type} {e m : List (String × α)}
    (hn : (e.map Prod.fst).Nodup)
    (hd : ∀ k ∈ e.map Prod.fst, k ∉ m.map Prod.fst) : dupdate m e = m ++ e := by
  induction e generalizing m with
  | nil => simp [dupdate]
  | cons x rest ih =>
    obtain ⟨xk, xv⟩ := x
    simp only [List.map_cons, List.nodup_cons] at hn
    have hf : xk ∉ m.map Prod.fst := hd xk (by simp)
    have step : dupdate m ((xk, xv) :: rest) = dupdate (m ++ [(xk, xv)]) rest := by
      simp [dupdate, dinsert_fresh hf]
    have hdr : ∀ k ∈ rest.map Prod.fst, k ∉ (m ++ [(xk, xv)]).map Prod.fst := by
      intro k hk
      simp only [List.map_append, List.mem_append, List.map_cons, List.map_nil,
        List.mem_singleton, List.not_mem_nil, or_false]
      push_neg
      refine ⟨hd k (by simp [hk]), ?_⟩
      intro he
      exact hn.1 (he ▸ hk)
    rw [step, ih hn.2 hdr]
    simp

/-- Shifting the head of the right part of a Nodup append. -/
theorem nodup_shift {a : List String} {k : String} {b : List String}
    (h : (a ++ k :: b).Nodup) : ((a ++ [k]) ++ b).Nodup := by
  rw [← List.append_cons]
  exact h

/-- The head key of the right part of a Nodup append is not on the left. -/
theorem nodup_head_fresh {a : List String} {k : String} {b : List String}
    (h : (a ++ k :: b).Nodup) : k ∉ a := by
  intro hk
  exact (List.nodup_append.mp h).2.2 hk (by simp)

/-- Keys of a successful attribute compilation: the accumulator's keys
followed by one `attrKey` per non-`criteria` attribute, in order. -/
theorem compileAttrs_keys {opts : Listing} {itemtype key : String} :
    ∀ {attrs : List (String × PyVal)} {acc d : Dict} {st st2 : FDState},
    compileAttrs opts itemtype key attrs acc st = .ok (d, st2) →
    (acc.map Prod.fst ++ ownKeys key attrs).Nodup →
    d.map Prod.fst = acc.map Prod.fst ++ ownKeys key attrs := by
  intro attrs
  induction attrs with
  | nil =>
    intro acc d st st2 h hn
    simp only [compileAttrs, Except.ok.injEq, Prod.mk.injEq] at h
    simp [ownKeys, ← h.1]
  | cons pv rest ih =>
    obtain ⟨p, v⟩ := pv
    intro acc d st st2 h hn
    by_cases hc : p = "criteria"
    · rw [compileAttrs, if_pos hc] at h
      have ho : ownKeys key ((p, v) :: rest) = ownKeys key rest := by
        simp [ownKeys, hc]
      rw [ho] at hn ⊢
      exact ih h hn
    · have ho : ownKeys key ((p, v) :: rest) = attrKey key p :: ownKeys key rest := by
        simp [ownKeys, hc]
      rw [ho] at hn ⊢
      have hk : attrKey key p ∉ acc.map Prod.fst := nodup_head_fresh hn
      have hn2 : ((acc.map Prod.fst ++ [attrKey key p]) ++ ownKeys key rest).Nodup :=
        nodup_shift hn
      by_cases hf : p = "field"
      · rw [compileAttrs, if_neg hc, if_pos hf] at h
        cases hfi : field_id opts st itemtype v false with
        | error e => rw [hfi] at h; cases h
        | ok x =>
          obtain ⟨r, st3, b⟩ := x
          rw [hfi] at h
          have := ih h (by rw [dinsert_fresh hk]; simpa using hn2)
          rw [dinsert_fresh hk] at this
          simp only [List.map_append, List.map_cons, List.map_nil] at this
          rw [this]
          simp
      · rw [compileAttrs, if_neg hc, if_neg hf] at h
        have := ih h (by rw [dinsert_fresh hk]; simpa using hn2)
        rw [dinsert_fresh hk] at this
        simp only [List.map_append, List.map_cons, List.map_nil] at this
        rw [this]
        simp

/-- Compiling an empty criteria list yields no parameters and leaves the
cache unchanged. -/
theorem add_criteria_nil (opts : Listing) (itemtype : String)
    (parent : Option String) (st : FDState) :
    add_criteria opts itemtype (.list []) parent st = .ok ([], st) := by
  rw [add_criteria, addCriteriaList]

/-- The middle part of a Nodup double append is Nodup. -/
theorem nodup_middle {x y z : List String} (h : (x ++ (y ++ z)).Nodup) :
    y.Nodup :=
  (List.nodup_append.mp ((List.nodup_append.mp h).2.1)).1

/-- Keys of the middle part of a Nodup double append are not on the left. -/
theorem nodup_disj_mid {x y z : List String} (h : (x ++ (y ++ z)).Nodup) :
    ∀ k ∈ y, k ∉ x :=
  fun _ hk hx => (List.nodup_append.mp h).2.2 hx (by simp [hk])

/-- Regrouping a Nodup double append. -/
theorem nodup_regroup {x y z : List String} (h : (x ++ (y ++ z)).Nodup) :
    ((x ++ y) ++ z).Nodup := by
  rw [List.append_assoc]
  exact h

/-- Keys of a successful compilation of a flat criteria segment (criterion
dicts without a `criteria` attribute): the accumulator's keys followed by
one group of keys per criterion, in input order. -/
theorem addCriteriaList_flat_keys {opts : Listing} {itemtype : String} :
    ∀ {attrsList : List (List (String × PyVal))} {idx : Nat}
      {parent : Option String} {acc d : Dict} {st st2 : FDState},
    (∀ a ∈ attrsList, dlookup a "criteria" = none) →
    addCriteriaList opts itemtype (attrsList.map PyVal.dict) idx parent acc st
      = .ok (d, st2) →
    (acc.map Prod.fst ++ flatKeys parent idx attrsList).Nodup →
    d.map Prod.fst = acc.map Prod.fst ++ flatKeys parent idx attrsList := by
  intro attrsList
  induction attrsList with
  | nil =>
    intro idx parent acc d st st2 hflat h hn
    rw [List.map_nil, addCriteriaList] at h
    obtain ⟨h1, _⟩ := Prod.mk.injEq .. ▸ Except.ok.injEq .. ▸ h
    simp [flatKeys, ← h1]
  | cons a rest ih =>
    intro idx parent acc d st st2 hflat h hn
    rw [List.map_cons, addCriteriaList] at h
    have hsub : dget a "criteria" (.list []) = .list [] := by
      simp [dget, hflat a (by simp)]
    rw [hsub, add_criteria_nil] at h
    dsimp only at h
    simp only [flatKeys] at hn ⊢
    cases hca : compileAttrs opts itemtype (critKey parent idx) a [] st with
    | error e => rw [hca] at h; cases h
    | ok x =>
      obtain ⟨own, st3⟩ := x
      rw [hca] at h
      dsimp only at h
      have hown : own.map Prod.fst = ownKeys (critKey parent idx) a := by
        have := compileAttrs_keys hca (by simpa using nodup_middle hn)
        simpa using this
      have hupd : dupdate (dupdate acc []) own = acc ++ own := by
        rw [dupdate_nil]
        exact dupdate_append (hown ▸ nodup_middle hn)
          (fun k hk => nodup_disj_mid hn k (hown ▸ hk))
      rw [hupd] at h
      have := ih (fun a ha => hflat a (by simp [ha])) h
        (by simp only [List.map_append, hown]; exact nodup_regroup hn)
      simp only [List.map_append, hown] at this
      rw [this, List.append_assoc]

/-- Lookup passes over a block without the key. -/
theorem dlookup_append_right {α : Type} {a : List (String × α)} {k : String}
    (b : List (String × α)) (h : dlookup a k = none) :
    dlookup (a ++ b) k = dlookup b k := by
  induction a with
  | nil => rfl
  | cons x rest ih =>
    obtain ⟨xk, xv⟩ := x
    rw [dlookup] at h
    by_cases he : xk = k
    · simp [he] at h
    · rw [if_neg he] at h
      simpa [dlookup, he] using ih h

/-- The `criteria` entry contributes no attribute key. -/
theorem ownKeys_append_criteria (key : String) (a : List (String × PyVal))
    (v : PyVal) : ownKeys key (a ++ [("criteria", v)]) = ownKeys key a := by
  simp [ownKeys, List.filterMap_append]

/-- Keys of a successful compilation of a two-level criteria sequence:
per criterion, first the keys of its flat sub-criteria (prefixed by the
parent's key), then its own attribute keys. -/
theorem addCriteriaList_twoLevel_keys {opts : Listing} {itemtype : String} :
    ∀ {cs : List (List (String × PyVal) × List (List (String × PyVal)))}
      {idx : Nat} {acc d : Dict} {st st2 : FDState},
    (∀ x ∈ cs, dlookup x.1 "criteria" = none ∧
      ∀ sa ∈ x.2, dlookup sa "criteria" = none) →
    addCriteriaList opts itemtype (cs.map (fun x => mkNested x.1 x.2)) idx none acc st
      = .ok (d, st2) →
    (acc.map Prod.fst ++ twoLevelKeys idx cs).Nodup →
    d.map Prod.fst = acc.map Prod.fst ++ twoLevelKeys idx cs := by
  intro cs
  induction cs with
  | nil =>
    intro idx acc d st st2 hw h hn
    rw [List.map_nil, addCriteriaList] at h
    obtain ⟨h1, _⟩ := Prod.mk.injEq .. ▸ Except.ok.injEq .. ▸ h
    simp [twoLevelKeys, ← h1]
  | cons x rest ih =>
    obtain ⟨a, subs⟩ := x
    intro idx acc d st st2 hw h hn
    rw [List.map_cons] at h
    dsimp only at h
    rw [show mkNested a subs
        = PyVal.dict (a ++ [("criteria", PyVal.list (subs.map PyVal.dict))]) from rfl] at h
    rw [addCriteriaList] at h
    have hga : dlookup a "criteria" = none := (hw (a, subs) (by simp)).1
    have hsub : dget (a ++ [("criteria", PyVal.list (subs.map PyVal.dict))])
        "criteria" (.list []) = .list (subs.map PyVal.dict) := by
      rw [dget, dlookup_append_right _ hga]
      simp [dlookup]
    rw [hsub, add_criteria] at h
    simp only [twoLevelKeys] at hn ⊢
    cases hsc : addCriteriaList opts itemtype (subs.map PyVal.dict) 0
        (some (critKey none idx)) [] st with
    | error e => rw [hsc] at h; cases h
    | ok y =>
      obtain ⟨subP, st1⟩ := y
      rw [hsc] at h
      dsimp only at h
      have hsubkeys : subP.map Prod.fst = flatKeys (some (critKey none idx)) 0 subs := by
        have := addCriteriaList_flat_keys (fun sa hsa => (hw (a, subs) (by simp)).2 sa hsa)
          hsc (by simpa using nodup_middle hn)
        simpa using this
      cases hca : compileAttrs opts itemtype (critKey none idx)
          (a ++ [("criteria", PyVal.list (subs.map PyVal.dict))]) [] st1 with
      | error e => rw [hca] at h; cases h
      | ok z =>
        obtain ⟨own, st3⟩ := z
        rw [hca] at h
        dsimp only at h
        have hownnd : (ownKeys (critKey none idx) a).Nodup :=
          nodup_middle (nodup_regroup hn)
        have hown : own.map Prod.fst = ownKeys (critKey none idx) a := by
          have := compileAttrs_keys hca
            (by simpa [ownKeys_append_criteria] using hownnd)
          simpa [ownKeys_append_criteria] using this
        have hupd1 : dupdate acc subP = acc ++ subP := by
          refine dupdate_append (hsubkeys ▸ nodup_middle hn) ?_
          intro k hk
          exact nodup_disj_mid hn k (hsubkeys ▸ hk)
        have hupd2 : dupdate (acc ++ subP) own = (acc ++ subP) ++ own := by
          refine dupdate_append (hown ▸ hownnd) ?_
          intro k hk
          have hk2 : k ∈ ownKeys (critKey none idx) a := hown ▸ hk
          have := nodup_disj_mid (nodup_regroup hn) k (by simp [hk2])
          simpa [hsubkeys] using this
        rw [hupd1, hupd2] at h
        have hnext : (((acc ++ subP) ++ own).map Prod.fst ++ twoLevelKeys (idx + 1) rest).Nodup := by
          simp only [List.map_append, hsubkeys, hown]
          exact nodup_regroup (nodup_regroup hn)
        have := ih (fun y hy => hw y (by simp [hy])) h hnext
        simp only [List.map_append, hsubkeys, hown] at this
        rw [this]
        simp [List.append_assoc]

/-- C1: compiling a criteria sequence whose criteria have no nested
`criteria` key (with `parent = None`) produces exactly one group of flat
parameters per input criterion, keyed `criteria[i][attr]` for each
non-`criteria` attribute, with `i` ranging over the input positions in
order; and in a sequence nested one level deep, the sub-criterion at child
index `c` under the parent at index `p` produces keys prefixed
`criteria[p][criteria][c]`.  Stated over the emitted key sequence, for
compilations that succeed with pairwise-distinct keys. -/
theorem criteria_flat_and_nested_keys :
    (∀ (opts : Listing) (itemtype : String) (st st2 : FDState)
        (attrsList : List (List (String × PyVal))) (d : Dict),
      (∀ a ∈ attrsList, dlookup a "criteria" = none) →
      add_criteria opts itemtype (.list (attrsList.map PyVal.dict)) none st
        = .ok (d, st2) →
      (flatKeys none 0 attrsList).Nodup →
      d.map Prod.fst = flatKeys none 0 attrsList) ∧
    (∀ (opts : Listing) (itemtype : String) (st st2 : FDState)
        (cs : List (List (String × PyVal) × List (List (String × PyVal))))
        (d : Dict),
      (∀ x ∈ cs, dlookup x.1 "criteria" = none ∧
        ∀ sa ∈ x.2, dlookup sa "criteria" = none) →
      add_criteria opts itemtype (.list (cs.map (fun x => mkNested x.1 x.2))) none st
        = .ok (d, st2) →
      (twoLevelKeys 0 cs).Nodup →
      d.map Prod.fst = twoLevelKeys 0 cs) := by
  constructor
  · intro opts itemtype st st2 attrsList d hflat h hn
    rw [add_criteria] at h
    simpa using addCriteriaList_flat_keys hflat h (by simpa using hn)
  · intro opts itemtype st st2 cs d hw h hn
    rw [add_criteria] at h
    simpa using addCriteriaList_twoLevel_keys hw h (by simpa using hn)

/-- Witness for C1 at concrete inputs: two flat criteria produce the two
key groups in order, and one criterion with one sub-criterion produces the
`criteria[0][criteria][0]`-prefixed key before the parent's own key. -/
theorem criteria_flat_and_nested_keys_witness :
    ([("criteria[0][field]", PyVal.str "40"), ("criteria[0][value]", PyVal.str "x"),
      ("criteria[1][searchtype]", PyVal.str "contains")].map Prod.fst
      = flatKeys none 0 [[("field", PyVal.int 40), ("value", PyVal.str "x")],
          [("searchtype", PyVal.str "contains")]]) ∧
    ([("criteria[0][criteria][0][value]", PyVal.str "y"),
      ("criteria[0][field]", PyVal.str "1")].map Prod.fst
      = twoLevelKeys 0 [([("field", PyVal.int 1)], [[("value", PyVal.str "y")]])]) := by
  constructor
  · exact criteria_flat_and_nested_keys.1 (fun _ => []) "Computer" ⟨[]⟩ ⟨[]⟩
      [[("field", PyVal.int 40), ("value", PyVal.str "x")],
        [("searchtype", PyVal.str "contains")]]
      [("criteria[0][field]", PyVal.str "40"), ("criteria[0][value]", PyVal.str "x"),
        ("criteria[1][searchtype]", PyVal.str "contains")]
      (by intro a ha; fin_cases ha <;> rfl)
      (by simp [add_criteria, addCriteriaList, compileAttrs, dget, dlookup, dinsert,
            dupdate, critKey, attrKey, field_id, strOf, pyFullDigits, escapeVal,
            escapeQuotes, fetchFields]
          rfl)
      (by decide)
  · exact criteria_flat_and_nested_keys.2 (fun _ => []) "Computer" ⟨[]⟩ ⟨[]⟩
      [([("field", PyVal.int 1)], [[("value", PyVal.str "y")]])]
      [("criteria[0][criteria][0][value]", PyVal.str "y"),
        ("criteria[0][field]", PyVal.str "1")]
      (by intro x hx; fin_cases hx; exact ⟨rfl, by intro sa hsa; fin_cases hsa; rfl⟩)
      (by simp [add_criteria, addCriteriaList, compileAttrs, dget, dlookup, dinsert,
            dupdate, critKey, attrKey, field_id, strOf, pyFullDigits, escapeVal,
            escapeQuotes, fetchFields, mkNested]
          rfl)
      (by decide)

/-- C2: the metacriteria loop of `search` tags every metacriterion with
`meta = True` and appends it after all plain criteria, preserving the
relative order within each group; and with empty criteria and one
metacriterion the compiled parameters are exactly one criterion group at
top-level index 0 carrying `meta: True`. -/
theorem metacriteria_tagged_appended :
    (∀ (cs : List PyVal) (ms : List Dict),
      metaLoop (.list cs) (ms.map PyVal.dict)
        = .ok (.list (cs ++ ms.map (fun d => PyVal.dict (dinsert d "meta" (.bool true)))))) ∧
    search_params (fun _ => [("2", [("uid", PyVal.str "Computer.X")])]) "Computer"
      [("criteria", PyVal.list []),
       ("metacriteria", PyVal.list [PyVal.dict [("field", PyVal.str "X"), ("value", PyVal.str "a")]])]
      ⟨[]⟩
      = .ok ([("criteria[0][field]", PyVal.str "2"), ("criteria[0][value]", PyVal.str "a"),
              ("criteria[0][meta]", PyVal.bool true)],
             ⟨[("Computer", [("X", "2")])]⟩) := by
  constructor
  · intro cs ms
    induction ms generalizing cs with
    | nil => simp [metaLoop]
    | cons d rest ih =>
      simp only [List.map_cons, metaLoop, ih]
      simp
  · simp [search_params, add_forcedisplay, metaLoop, add_criteria, addCriteriaList,
      compileAttrs, dget, dlookup, dinsert, dupdate, dremove, critKey, attrKey,
      field_id, strOf, pyFullDigits, fetchFields, map_fields, stripUid, escapeVal,
      escapeQuotes]
    rfl

/-- Counterexample for C3: compiling the criterion with the numeric field
45 yields the string "45" as the field parameter, not the integer 45
unchanged, so the compiled mapping differs from the one the claim states. -/
theorem field_id_numeric_not_unchanged :
    add_criteria (fun _ => []) "Computer"
      (.list [.dict [("field", PyVal.int 45), ("searchtype", PyVal.str "contains"),
        ("value", PyVal.str "Ubuntu")]]) none ⟨[]⟩
      = .ok ([("criteria[0][field]", PyVal.str "45"),
              ("criteria[0][searchtype]", PyVal.str "contains"),
              ("criteria[0][value]", PyVal.str "Ubuntu")], ⟨[]⟩) ∧
    PyVal.str "45" ≠ PyVal.int 45 ∧
    [("criteria[0][field]", PyVal.str "45"),
     ("criteria[0][searchtype]", PyVal.str "contains"),
     ("criteria[0][value]", PyVal.str "Ubuntu")]
      ≠ [("criteria[0][field]", PyVal.int 45),
         ("criteria[0][searchtype]", PyVal.str "contains"),
         ("criteria[0][value]", PyVal.str "Ubuntu")] := by
  refine ⟨?_, by simp, by simp⟩
  simp [add_criteria, addCriteriaList, compileAttrs, dget, dlookup, dinsert, dupdate,
    critKey, attrKey, field_id, strOf, pyFullDigits, escapeVal, escapeQuotes, fetchFields]
  rfl

/-- C3 as amended: a field identifier whose string form is all digits is
returned by `field_id` as that string, with no metadata fetch and no cache
or directory access (the result is the same for every directory and every
cache state, which is returned unchanged, with the fetch flag false); and
the criterion with field 45 compiles to exactly the three parameters with
the field value "45". -/
theorem field_id_numeric_string_passthrough :
    (∀ (opts : Listing) (st : FDState) (itemtype : String) (v : PyVal) (refresh : Bool),
      pyFullDigits (strOf v) = true →
      field_id opts st itemtype v refresh = .ok (strOf v, st, false)) ∧
    (∀ (opts : Listing) (st : FDState),
      add_criteria opts "Computer"
        (.list [.dict [("field", PyVal.int 45), ("searchtype", PyVal.str "contains"),
          ("value", PyVal.str "Ubuntu")]]) none st
        = .ok ([("criteria[0][field]", PyVal.str "45"),
                ("criteria[0][searchtype]", PyVal.str "contains"),
                ("criteria[0][value]", PyVal.str "Ubuntu")], st)) := by
  constructor
  · intro opts st itemtype v refresh h
    rw [field_id, if_pos h]
  · intro opts st
    simp [add_criteria, addCriteriaList, compileAttrs, dget, dlookup, dinsert, dupdate,
      critKey, attrKey, field_id, strOf, pyFullDigits, escapeVal, escapeQuotes]
    rfl

/-- Witness for C3's amended theorem at the numeric field 45. -/
theorem field_id_numeric_string_passthrough_witness :
    field_id (fun _ => []) ⟨[]⟩ "Computer" (.int 45) false = .ok ("45", ⟨[]⟩, false) :=
  field_id_numeric_string_passthrough.1 (fun _ => []) ⟨[]⟩ "Computer" (.int 45) false rfl

/-- C4: for a criterion attribute other than `criteria` and `field`, a
string value compiles with every single quote doubled and any other value
passes through unchanged; in particular the quote doubling sends "O'Brien"
to "O''Brien". -/
theorem criterion_value_passthrough_escaped :
    (∀ (opts : Listing) (itemtype : String) (st : FDState) (p : String) (s : String),
      p ≠ "criteria" → p ≠ "field" →
      add_criteria opts itemtype (.list [.dict [(p, .str s)]]) none st
        = .ok ([(attrKey (critKey none 0) p, .str (escapeQuotes s))], st)) ∧
    (∀ (opts : Listing) (itemtype : String) (st : FDState) (p : String) (v : PyVal),
      p ≠ "criteria" → p ≠ "field" → (∀ s, v ≠ .str s) →
      add_criteria opts itemtype (.list [.dict [(p, v)]]) none st
        = .ok ([(attrKey (critKey none 0) p, v)], st)) ∧
    escapeQuotes "O'Brien" = "O''Brien" := by
  refine ⟨?_, ?_, rfl⟩
  · intro opts itemtype st p s hc hf
    simp [add_criteria, addCriteriaList, compileAttrs, dget, dlookup, dinsert, dupdate,
      critKey, attrKey, escapeVal, hc, hf]
  · intro opts itemtype st p v hc hf hs
    have hv : escapeVal v = v := by
      cases v with
      | str s => exact absurd rfl (hs s)
      | _ => rfl
    simp [add_criteria, addCriteriaList, compileAttrs, dget, dlookup, dinsert, dupdate,
      critKey, attrKey, escapeVal, hc, hf, hv]

/-- Witness for C4 at a concrete attribute and the O'Brien value. -/
theorem criterion_value_passthrough_escaped_witness :
    add_criteria (fun _ => []) "Computer"
      (.list [.dict [("value", PyVal.str "O'Brien")]]) none ⟨[]⟩
      = .ok ([(attrKey (critKey none 0) "value", PyVal.str "O''Brien")], ⟨[]⟩) := by
  have h := criterion_value_passthrough_escaped.1 (fun _ => []) "Computer" ⟨[]⟩
    "value" "O'Brien" (by decide) (by decide)
  simpa using h

/-- Replacing the value at one key leaves other lookups unchanged. -/
theorem dlookup_map_replace {α : Type} {m : List (String × α)} {k k2 : String}
    {v : α} (h : k2 ≠ k) :
    dlookup (m.map (fun p => if p.1 = k then (k, v) else p)) k2 = dlookup m k2 := by
  induction m with
  | nil => rfl
  | cons x rest ih =>
    obtain ⟨xk, xv⟩ := x
    have hkne : ¬ k = k2 := fun he => h he.symm
    by_cases hx : xk = k
    · subst hx
      rw [List.map_cons]
      dsimp only
      rw [if_pos rfl]
      simp only [dlookup]
      rw [if_neg hkne, if_neg hkne, ih]
    · by_cases he : xk = k2
      · subst he
        rw [List.map_cons]
        dsimp only
        rw [if_neg hx]
        simp [dlookup]
      · rw [List.map_cons]
        dsimp only
        rw [if_neg hx]
        simp only [dlookup]
        rw [if_neg he, if_neg he, ih]

/-- Appending one pair with a different key leaves a lookup unchanged. -/
theorem dlookup_append_single_ne {α : Type} {m : List (String × α)}
    {k k2 : String} {v : α} (h : k2 ≠ k) :
    dlookup (m ++ [(k, v)]) k2 = dlookup m k2 := by
  have hkne : ¬ k = k2 := fun he => h he.symm
  induction m with
  | nil => simp [dlookup, hkne]
  | cons x rest ih =>
    obtain ⟨xk, xv⟩ := x
    rw [List.cons_append, dlookup, dlookup]
    by_cases he : xk = k2 <;> simp [he, ih]

/-- Inserting at a different key leaves a lookup unchanged. -/
theorem dlookup_dinsert_ne {α : Type} {m : List (String × α)} {k k2 : String}
    {v : α} (h : k2 ≠ k) :
    dlookup (dinsert m k v) k2 = dlookup m k2 := by
  rw [dinsert]
  by_cases hc : (m.map Prod.fst).contains k = true
  · rw [if_pos hc]
    exact dlookup_map_replace h
  · rw [if_neg hc]
    exact dlookup_append_single_ne h

/-- Replacing the value at a present key makes it look up to the new
value. -/
theorem dlookup_map_replace_self {α : Type} {m : List (String × α)}
    {k : String} {v : α} (hm : k ∈ m.map Prod.fst) :
    dlookup (m.map (fun p => if p.1 = k then (k, v) else p)) k = some v := by
  induction m with
  | nil => cases hm
  | cons x rest ih =>
    obtain ⟨xk, xv⟩ := x
    by_cases hx : xk = k
    · subst hx
      rw [List.map_cons]
      dsimp only
      rw [if_pos rfl]
      simp [dlookup]
    · simp only [List.map_cons, List.mem_cons] at hm
      rcases hm with h | h
      · exact absurd h.symm hx
      · rw [List.map_cons]
        dsimp only
        rw [if_neg hx]
        simp only [dlookup]
        rw [if_neg hx]
        exact ih h

/-- Looking up the inserted key finds the inserted value. -/
theorem dlookup_dinsert_self {α : Type} (m : List (String × α)) (k : String)
    (v : α) : dlookup (dinsert m k v) k = some v := by
  rw [dinsert]
  by_cases hc : (m.map Prod.fst).contains k = true
  · rw [if_pos hc]
    exact dlookup_map_replace_self (by simpa using hc)
  · rw [if_neg hc]
    have hm : k ∉ m.map Prod.fst := by simpa using hc
    rw [dlookup_append_right _ (dlookup_eq_none hm), dlookup, if_pos rfl]

/-- Folding reverse insertions over pairs whose values avoid `i` leaves
the lookup of `i` unchanged. -/
theorem foldl_dinsert_skip {m : List (String × String)} {i : String}
    (h : i ∉ m.map Prod.snd) (acc : List (String × String)) :
    dlookup (m.foldl (fun a kv => dinsert a kv.2 kv.1) acc) i = dlookup acc i := by
  induction m generalizing acc with
  | nil => rfl
  | cons x rest ih =>
    obtain ⟨xk, xv⟩ := x
    simp only [List.map_cons, List.mem_cons] at h
    push_neg at h
    rw [List.foldl_cons, ih h.2, dlookup_dinsert_ne h.1]

/-- In the reversed mapping of an injective mapping (pairwise-distinct
values), the value of an entry looks up to its key. -/
theorem revMap_lookup {m : List (String × String)} {n i : String}
    (hv : (m.map Prod.snd).Nodup) (hm : (n, i) ∈ m) :
    dlookup (revMap m) i = some n := by
  suffices hgen : ∀ acc,
      dlookup (m.foldl (fun a kv => dinsert a kv.2 kv.1) acc) i = some n by
    exact hgen []
  induction m with
  | nil => cases hm
  | cons x rest ih =>
    obtain ⟨xk, xv⟩ := x
    intro acc
    simp only [List.map_cons, List.nodup_cons] at hv
    rw [List.foldl_cons]
    dsimp only
    rcases List.mem_cons.mp hm with h | h
    · obtain ⟨h1, h2⟩ := Prod.mk.injEq .. ▸ h
      rw [foldl_dinsert_skip (h2 ▸ hv.1), h1, h2]
      exact dlookup_dinsert_self acc xv xk
    · exact ih hv.2 h (dinsert acc xv xk)

/-- Replacing the value at one key leaves the key sequence unchanged. -/
theorem map_replace_keys {α : Type} (m : List (String × α)) (k : String)
    (v : α) :
    (m.map (fun p => if p.1 = k then (k, v) else p)).map Prod.fst
      = m.map Prod.fst := by
  rw [List.map_map]
  apply List.map_congr_left
  intro p _
  by_cases hx : p.1 = k
  · simp [Function.comp, hx]
  · simp [Function.comp, hx]

/-- Inserting preserves uniqueness of the keys. -/
theorem dinsert_keys_nodup {α : Type} {m : List (String × α)} {k : String}
    {v : α} (h : (m.map Prod.fst).Nodup) :
    ((dinsert m k v).map Prod.fst).Nodup := by
  rw [dinsert]
  by_cases hc : (m.map Prod.fst).contains k = true
  · rw [if_pos hc, map_replace_keys]
    exact h
  · rw [if_neg hc]
    have hk : k ∉ m.map Prod.fst := by simpa using hc
    simp only [List.map_append, List.map_cons, List.map_nil]
    rw [List.nodup_append]
    refine ⟨h, List.nodup_singleton k, ?_⟩
    intro a ha hb
    rw [List.mem_singleton] at hb
    exact hk (hb ▸ ha)

/-- Replacing the value at one key by a value not yet present keeps the
value sequence duplicate-free, and every value afterwards is an old value
or the new one (keys are assumed unique, as in every dict this
development builds). -/
theorem map_replace_vals_nodup {m : List (String × String)} {k v : String}
    (hk : (m.map Prod.fst).Nodup) (hv : (m.map Prod.snd).Nodup)
    (hf : v ∉ m.map Prod.snd) :
    ((m.map (fun p => if p.1 = k then (k, v) else p)).map Prod.snd).Nodup ∧
    ∀ w ∈ (m.map (fun p => if p.1 = k then (k, v) else p)).map Prod.snd,
      w ∈ m.map Prod.snd ∨ w = v := by
  induction m with
  | nil => simp
  | cons x rest ih =>
    obtain ⟨xk, xv⟩ := x
    simp only [List.map_cons, List.nodup_cons] at hk hv
    simp only [List.map_cons, List.mem_cons] at hf
    push_neg at hf
    obtain ⟨ihn, ihs⟩ := ih hk.2 hv.2 hf.2
    by_cases hx : xk = k
    · subst hx
      have hrest : rest.map (fun p => if p.1 = xk then (xk, v) else p) = rest := by
        conv_rhs => rw [← List.map_id rest]
        apply List.map_congr_left
        intro p hp
        have hne : p.1 ≠ xk := by
          intro he
          exact hk.1 (he ▸ List.mem_map.mpr ⟨p, hp, rfl⟩)
        simp [hne]
      rw [List.map_cons]
      dsimp only
      rw [if_pos rfl, hrest]
      constructor
      · simp only [List.map_cons, List.nodup_cons]
        exact ⟨hf.2, hv.2⟩
      · intro w hw
        simp only [List.map_cons, List.mem_cons] at hw ⊢
        rcases hw with hw | hw
        · exact Or.inr hw
        · exact Or.inl (Or.inr hw)
    · rw [List.map_cons]
      dsimp only
      rw [if_neg hx]
      constructor
      · simp only [List.map_cons, List.nodup_cons]
        refine ⟨?_, ihn⟩
        intro hmem
        rcases ihs xv hmem with h | h
        · exact hv.1 h
        · exact hf.1 h.symm
      · intro w hw
        simp only [List.map_cons, List.mem_cons] at hw ⊢
        rcases hw with hw | hw
        · exact Or.inl (Or.inl hw)
        · rcases ihs w hw with h | h
          · exact Or.inl (Or.inr h)
          · exact Or.inr h

/-- Inserting a value not yet present keeps the value sequence
duplicate-free, and every value afterwards is an old value or the new
one. -/
theorem dinsert_vals_nodup {m : List (String × String)} {k v : String}
    (hk : (m.map Prod.fst).Nodup) (hv : (m.map Prod.snd).Nodup)
    (hf : v ∉ m.map Prod.snd) :
    ((dinsert m k v).map Prod.snd).Nodup ∧
    ∀ w ∈ (dinsert m k v).map Prod.snd, w ∈ m.map Prod.snd ∨ w = v := by
  rw [dinsert]
  by_cases hc : (m.map Prod.fst).contains k = true
  · rw [if_pos hc]
    exact map_replace_vals_nodup hk hv hf
  · rw [if_neg hc]
    constructor
    · simp only [List.map_append, List.map_cons, List.map_nil]
      rw [List.nodup_append]
      refine ⟨hv, List.nodup_singleton v, ?_⟩
      intro a ha hb
      rw [List.mem_singleton] at hb
      exact hf (hb ▸ ha)
    · intro w hw
      simp only [List.map_append, List.map_cons, List.map_nil,
        List.mem_append, List.mem_singleton] at hw
      exact hw

/-- Over a listing with unique keys (a JSON object), the fold of
`map_fields` keeps the accumulator's key/value uniqueness: the built
mapping has unique keys, unique values, and every value is a listing key
or an accumulator value. -/
theorem map_fields_fold_nodup {itemtype : String} :
    ∀ {listing : List (String × Desc)} {acc : List (String × String)},
    (acc.map Prod.fst).Nodup →
    (listing.map Prod.fst ++ acc.map Prod.snd).Nodup →
    ((listing.foldl
        (fun m fd =>
          match dlookup fd.2 "uid" with
          | some (PyVal.str u) => dinsert m (stripUid itemtype u) fd.1
          | _ => m)
        acc).map Prod.fst).Nodup ∧
    ((listing.foldl
        (fun m fd =>
          match dlookup fd.2 "uid" with
          | some (PyVal.str u) => dinsert m (stripUid itemtype u) fd.1
          | _ => m)
        acc).map Prod.snd).Nodup ∧
    ∀ w ∈ (listing.foldl
        (fun m fd =>
          match dlookup fd.2 "uid" with
          | some (PyVal.str u) => dinsert m (stripUid itemtype u) fd.1
          | _ => m)
        acc).map Prod.snd,
      w ∈ listing.map Prod.fst ∨ w ∈ acc.map Prod.snd := by
  intro listing
  induction listing with
  | nil =>
    intro acc h1 h2
    refine ⟨h1, ?_, fun w hw => Or.inr hw⟩
    simpa using h2
  | cons fd rest ih =>
    intro acc h1 h2
    rw [List.map_cons, List.cons_append] at h2
    have h2r : (rest.map Prod.fst ++ acc.map Prod.snd).Nodup := h2.of_cons
    have hfd : fd.1 ∉ rest.map Prod.fst ++ acc.map Prod.snd :=
      (List.nodup_cons.mp h2).1
    simp only [List.mem_append] at hfd
    push_neg at hfd
    rw [List.foldl_cons]
    cases hu : dlookup fd.2 "uid" with
    | none =>
      dsimp only
      obtain ⟨c1, c2, c3⟩ := ih h1 h2r
      exact ⟨c1, c2, fun w hw => (c3 w hw).imp (List.mem_cons_of_mem _) id⟩
    | some val =>
      cases val with
      | str u =>
        dsimp only
        have haccv : (acc.map Prod.snd).Nodup :=
          (List.nodup_append.mp h2r).2.1
        obtain ⟨dn, ds⟩ := dinsert_vals_nodup h1 haccv hfd.2
        have h1i : ((dinsert acc (stripUid itemtype u) fd.1).map Prod.fst).Nodup :=
          dinsert_keys_nodup h1
        have h2i : (rest.map Prod.fst
            ++ (dinsert acc (stripUid itemtype u) fd.1).map Prod.snd).Nodup := by
          rw [List.nodup_append]
          refine ⟨(List.nodup_append.mp h2r).1, dn, ?_⟩
          intro a ha hb
          rcases ds a hb with h | h
          · exact (List.nodup_append.mp h2r).2.2 ha h
          · exact hfd.1 (h ▸ ha)
        obtain ⟨c1, c2, c3⟩ := ih h1i h2i
        refine ⟨c1, c2, ?_⟩
        intro w hw
        rcases c3 w hw with h | h
        · exact Or.inl (List.mem_cons_of_mem _ h)
        · rcases ds w h with h | h
          · exact Or.inr h
          · exact Or.inl (h ▸ List.mem_cons_self _ _)
      | _ =>
        dsimp only
        obtain ⟨c1, c2, c3⟩ := ih h1 h2r
        exact ⟨c1, c2, fun w hw => (c3 w hw).imp (List.mem_cons_of_mem _) id⟩

/-- A fetched Field Directory mapping has unique keys. -/
theorem map_fields_keys_nodup (itemtype : String)
    (listing : List (String × Desc))
    (hl : (listing.map Prod.fst).Nodup) :
    ((map_fields itemtype listing).map Prod.fst).Nodup := by
  have := @map_fields_fold_nodup itemtype listing []
    (by simp) (by simpa using hl)
  exact this.1

/-- A fetched Field Directory mapping is injective: its values are the
unique keys of the metadata listing (a JSON object), so no two symbolic
names share a numeric ID. -/
theorem map_fields_values_nodup (itemtype : String)
    (listing : List (String × Desc))
    (hl : (listing.map Prod.fst).Nodup) :
    ((map_fields itemtype listing).map Prod.snd).Nodup := by
  have := @map_fields_fold_nodup itemtype listing []
    (by simp) (by simpa using hl)
  exact this.2.1

/-- C5: over a fetched Field Directory mapping held fixed (cached, no
intervening refresh), resolving a symbolic (non-numeric) field name to
its numeric ID via `field_id` and resolving that ID back via `field_uid`
yields the original name -- fetched mappings are always injective because
their values are the listing's unique JSON keys.  The third conjunct
shows the same resolution when the first call itself performs the fetch
that fixes the mapping. -/
theorem field_roundtrip_fetched (opts : Listing) (it n i : String)
    (hl : ((opts it).map Prod.fst).Nodup)
    (hm : (n, i) ∈ map_fields it (opts it))
    (hd : pyFullDigits n = false) :
    field_id opts ⟨[(it, map_fields it (opts it))]⟩ it (.str n) false
      = .ok (i, ⟨[(it, map_fields it (opts it))]⟩, false) ∧
    field_uid opts ⟨[(it, map_fields it (opts it))]⟩ it (.str i) false
      = .ok (n, ⟨[(it, map_fields it (opts it))]⟩, false) ∧
    field_id opts ⟨[]⟩ it (.str n) false
      = .ok (i, ⟨[(it, map_fields it (opts it))]⟩, true) := by
  have hk := map_fields_keys_nodup it (opts it) hl
  have hv := map_fields_values_nodup it (opts it) hl
  have hf : fetchFields opts ⟨[(it, map_fields it (opts it))]⟩ it false
      = (map_fields it (opts it), ⟨[(it, map_fields it (opts it))]⟩, false) := by
    simp [fetchFields, dlookup]
  refine ⟨?_, ?_, ?_⟩
  · rw [field_id, if_neg (by simp [strOf, hd]), hf]
    dsimp only
    rw [show strOf (.str n) = n from rfl, dlookup_of_mem hk hm]
  · rw [field_uid, hf]
    dsimp only
    rw [show strOf (.str i) = i from rfl, revMap_lookup hv hm]
  · have hf0 : fetchFields opts ⟨[]⟩ it false
        = (map_fields it (opts it), ⟨[(it, map_fields it (opts it))]⟩, true) := by
      simp [fetchFields, dlookup, dinsert]
    rw [field_id, if_neg (by simp [strOf, hd]), hf0]
    dsimp only
    rw [show strOf (.str n) = n from rfl, dlookup_of_mem hk hm]

/-- Witness for C5 at a concrete fetched mapping. -/
theorem field_roundtrip_fetched_witness :
    field_id (fun _ => [("80", [("uid", PyVal.str "Computer.Entity.completename")])])
      ⟨[("Computer", [("Entity.completename", "80")])]⟩ "Computer"
      (.str "Entity.completename") false
      = .ok ("80", ⟨[("Computer", [("Entity.completename", "80")])]⟩, false) ∧
    field_uid (fun _ => [("80", [("uid", PyVal.str "Computer.Entity.completename")])])
      ⟨[("Computer", [("Entity.completename", "80")])]⟩ "Computer"
      (.str "80") false
      = .ok ("Entity.completename",
          ⟨[("Computer", [("Entity.completename", "80")])]⟩, false) := by
  have h := field_roundtrip_fetched
    (fun _ => [("80", [("uid", PyVal.str "Computer.Entity.completename")])])
    "Computer" "Entity.completename" "80" (by decide) (by decide) (by decide)
  exact ⟨h.1, h.2.1⟩

/-- C6: a criteria argument that is not a sequence (not a list, tuple or
set) is rejected by the compiler with the module's `GLPIError`, for every
directory and cache state (so before and independent of any network
access), both when compiling directly and through the parameter assembly
of `search`. -/
theorem nonsequence_criteria_rejected :
    (∀ (opts : Listing) (itemtype : String) (st : FDState)
        (parent : Option String) (v : PyVal),
      isSeq v = false →
      add_criteria opts itemtype v parent st
        = .error (.glpiError ("search criteria should be a list, found: " ++ pyTypeName v))) ∧
    (∀ (opts : Listing) (itemtype : String) (st : FDState) (v : PyVal),
      isSeq v = false →
      search_params opts itemtype [("criteria", v)] st
        = .error (.glpiError ("search criteria should be a list, found: " ++ pyTypeName v))) := by
  constructor
  · intro opts itemtype st parent v h
    cases v
    case list => simp [isSeq] at h
    all_goals rw [add_criteria]
    all_goals intro xs hx
    all_goals cases hx
  · intro opts itemtype st v h
    cases v
    case list => simp [isSeq] at h
    all_goals
      simp [search_params, dget, dlookup, add_forcedisplay, metaLoop, add_criteria]

/-- Witness for C6 at a dict criteria argument. -/
theorem nonsequence_criteria_rejected_witness :
    add_criteria (fun _ => []) "Computer" (.dict []) none ⟨[]⟩
      = .error (.glpiError "search criteria should be a list, found: <class 'dict'>") ∧
    search_params (fun _ => []) "Computer" [("criteria", PyVal.str "x")] ⟨[]⟩
      = .error (.glpiError "search criteria should be a list, found: <class 'str'>") :=
  ⟨nonsequence_criteria_rejected.1 (fun _ => []) "Computer" ⟨[]⟩ none (.dict []) rfl,
   nonsequence_criteria_rejected.2 (fun _ => []) "Computer" ⟨[]⟩ (.str "x") rfl⟩

/-- Counterexample for C7: a symbolic field name absent from a cached
mapping makes `field_id` raise `KeyError`, a Python builtin that is not an
exception of the module's error taxonomy (not a `GLPIError`). -/
theorem field_id_missing_key_not_glpierror :
    field_id (fun _ => []) ⟨[("Computer", [("a", "1")])]⟩ "Computer"
      (.str "nope") false = .error (.keyError "nope") ∧
    isModuleError (.keyError "nope") = false := by
  refine ⟨?_, rfl⟩
  simp [field_id, fetchFields, dlookup, strOf, pyFullDigits]

/-- C7 as amended: a symbolic (non-numeric) field name absent from the
resolved mapping makes `field_id` raise `KeyError` -- no silent default --
both when the mapping is already cached and when it is fetched on the
call. -/
theorem field_id_missing_key_keyerror :
    (∀ (opts : Listing) (it : String) (m : List (String × String)) (n : PyVal),
      pyFullDigits (strOf n) = false →
      dlookup m (strOf n) = none →
      field_id opts ⟨[(it, m)]⟩ it n false = .error (.keyError (strOf n))) ∧
    (∀ (opts : Listing) (it : String) (n : PyVal),
      pyFullDigits (strOf n) = false →
      dlookup (map_fields it (opts it)) (strOf n) = none →
      field_id opts ⟨[]⟩ it n false = .error (.keyError (strOf n))) := by
  constructor
  · intro opts it m n hd hl
    have hf : fetchFields opts ⟨[(it, m)]⟩ it false = (m, ⟨[(it, m)]⟩, false) := by
      simp [fetchFields, dlookup]
    rw [field_id, if_neg (by simp [hd]), hf]
    dsimp only
    rw [hl]
  · intro opts it n hd hl
    have hf : fetchFields opts ⟨[]⟩ it false
        = (map_fields it (opts it), ⟨dinsert [] it (map_fields it (opts it))⟩, true) := by
      simp [fetchFields, dlookup]
    rw [field_id, if_neg (by simp [hd]), hf]
    dsimp only
    rw [hl]

/-- Witness for C7's amended theorem at a concrete absent name. -/
theorem field_id_missing_key_keyerror_witness :
    field_id (fun _ => []) ⟨[("Computer", [("a", "1")])]⟩ "Computer"
      (.str "zzz") false = .error (.keyError "zzz") :=
  field_id_missing_key_keyerror.1 (fun _ => []) "Computer" [("a", "1")]
    (.str "zzz") rfl rfl

/-- The fold of `map_fields` over any accumulator, when all derived keys
are distinct, appends one entry per descriptor with a string uid. -/
theorem map_fields_fold {itemtype : String} :
    ∀ {listing : List (String × Desc)} {acc : List (String × String)},
    (acc.map Prod.fst ++ (mapFieldsSpec itemtype listing).map Prod.fst).Nodup →
    listing.foldl
      (fun m fd =>
        match dlookup fd.2 "uid" with
        | some (PyVal.str u) => dinsert m (stripUid itemtype u) fd.1
        | _ => m)
      acc
    = acc ++ mapFieldsSpec itemtype listing := by
  intro listing
  induction listing with
  | nil =>
    intro acc hn
    simp [mapFieldsSpec]
  | cons fd rest ih =>
    intro acc hn
    rw [List.foldl_cons]
    cases hu : dlookup fd.2 "uid" with
    | none =>
      dsimp only
      have hs : mapFieldsSpec itemtype (fd :: rest) = mapFieldsSpec itemtype rest := by
        simp [mapFieldsSpec, List.filterMap_cons, hu]
      rw [hs] at hn ⊢
      exact ih hn
    | some val =>
      cases val with
      | str u =>
        dsimp only
        have hs : mapFieldsSpec itemtype (fd :: rest)
            = (stripUid itemtype u, fd.1) :: mapFieldsSpec itemtype rest := by
          simp [mapFieldsSpec, List.filterMap_cons, hu]
        rw [hs] at hn ⊢
        simp only [List.map_cons] at hn
        have hk : stripUid itemtype u ∉ acc.map Prod.fst := nodup_head_fresh hn
        rw [dinsert_fresh hk]
        have := @ih (acc ++ [(stripUid itemtype u, fd.1)])
          (by simpa using nodup_shift hn)
        rw [this]
        simp
      | _ =>
        dsimp only
        have hs : mapFieldsSpec itemtype (fd :: rest) = mapFieldsSpec itemtype rest := by
          simp [mapFieldsSpec, List.filterMap_cons, hu]
        rw [hs] at hn ⊢
        exact ih hn

/-- Counterexample for C8: for resource type "Computer", a descriptor with
uid "Computers" -- "Computer" followed by a character other than a dot --
is keyed by the empty string (the unescaped regex dot strips the prefix
and any one character), not by the unstripped "Computers" that stripping
only a literal "Computer." prefix would leave. -/
theorem map_fields_wildcard_dot_cex :
    map_fields "Computer" [("1", [("uid", PyVal.str "Computers")])] = [("", "1")] ∧
    [(("" : String), ("1" : String))] ≠ [("Computers", "1")] := by
  exact ⟨by decide, by decide⟩

/-- C8 as amended: the mapping `map_fields` builds has exactly one entry
per returned descriptor carrying a string `uid`, keyed by the uid with a
leading match of the resource type followed by any one non-newline
character removed, in listing order -- provided the derived keys are
pairwise distinct; descriptors without a `uid` are excluded. -/
theorem map_fields_per_descriptor (itemtype : String)
    (listing : List (String × Desc))
    (hn : ((mapFieldsSpec itemtype listing).map Prod.fst).Nodup) :
    map_fields itemtype listing = mapFieldsSpec itemtype listing := by
  have := @map_fields_fold itemtype listing [] (by simpa using hn)
  simpa [map_fields] using this

/-- Witness for C8's amended theorem at a two-descriptor listing. -/
theorem map_fields_per_descriptor_witness :
    map_fields "Computer"
      [("1", [("uid", PyVal.str "Computer.name")]),
       ("2", [("name", PyVal.str "no uid here")]),
       ("80", [("uid", PyVal.str "Computer.Entity.completename")])]
      = [("name", "1"), ("Entity.completename", "80")] := by
  have := map_fields_per_descriptor "Computer"
    [("1", [("uid", PyVal.str "Computer.name")]),
     ("2", [("name", PyVal.str "no uid here")]),
     ("80", [("uid", PyVal.str "Computer.Entity.completename")])]
    (by decide)
  rw [this]
  decide

/-- Writing an address then reading it back gives the written dict. -/
theorem storeGet_storeSet_self :
    ∀ {s : List Dict} {a : Nat} {d : Dict}, a < s.length →
    storeGet (storeSet s a d) a = d := by
  intro s
  induction s with
  | nil => intro a d h; cases h
  | cons x rest ih =>
    intro a d h
    cases a with
    | zero => rfl
    | succ a2 => exact ih (Nat.lt_of_succ_lt_succ h)

/-- Writing one address leaves every other address unchanged. -/
theorem storeGet_storeSet_ne :
    ∀ {s : List Dict} {a b : Nat} {d : Dict}, b ≠ a →
    storeGet (storeSet s a d) b = storeGet s b := by
  intro s
  induction s with
  | nil => intro a b d _; cases a <;> rfl
  | cons x rest ih =>
    intro a b d h
    cases a with
    | zero =>
      cases b with
      | zero => exact absurd rfl h
      | succ b2 => rfl
    | succ a2 =>
      cases b with
      | zero => rfl
      | succ b2 => exact ih (fun he => h (by rw [he]))

/-- A store write preserves the store's length. -/
theorem storeSet_length :
    ∀ {s : List Dict} {a : Nat} {d : Dict}, (storeSet s a d).length = s.length := by
  intro s
  induction s with
  | nil => intro a d; rfl
  | cons x rest ih =>
    intro a d
    cases a with
    | zero => rfl
    | succ a2 => simpa [storeSet] using ih

/-- C9: the metacriteria loop of `search` mutates its caller's arguments:
each metacriterion dict object (address) gets `meta = True` set in place
in the store, every other object is untouched, and those same objects are
appended to the caller's criteria list, which afterwards contains the
meta-tagged metacriteria dicts after the original criteria. -/
theorem search_mutates_caller_criteria :
    ∀ (store : List Dict) (cs ms : List Nat),
    ms.Nodup → (∀ a ∈ ms, a < store.length) →
    (metaTagLoop store cs ms).2 = cs ++ ms ∧
    (∀ a ∈ ms, storeGet (metaTagLoop store cs ms).1 a
        = dinsert (storeGet store a) "meta" (.bool true)) ∧
    (∀ a, a ∉ ms → storeGet (metaTagLoop store cs ms).1 a = storeGet store a) := by
  intro store cs ms
  induction ms generalizing store cs with
  | nil =>
    intro _ _
    exact ⟨by simp [metaTagLoop], by simp, fun a _ => by simp [metaTagLoop]⟩
  | cons a rest ih =>
    intro hnd hlen
    simp only [List.nodup_cons] at hnd
    rw [metaTagLoop]
    have hlen2 : ∀ b ∈ rest, b < (storeSet store a
        (dinsert (storeGet store a) "meta" (.bool true))).length := by
      intro b hb
      rw [storeSet_length]
      exact hlen b (by simp [hb])
    obtain ⟨ih1, ih2, ih3⟩ := ih _ (cs ++ [a]) hnd.2 hlen2
    refine ⟨by simpa using ih1, ?_, ?_⟩
    · intro b hb
      rcases List.mem_cons.mp hb with h | h
      · subst h
        rw [ih3 b hnd.1, storeGet_storeSet_self (hlen b (by simp))]
      · have hne : b ≠ a := fun he => hnd.1 (he ▸ h)
        rw [ih2 b h, storeGet_storeSet_ne hne]
    · intro b hb
      have h1 : b ∉ rest := fun hc => hb (by simp [hc])
      have h2 : b ≠ a := fun he => hb (by simp [he])
      rw [ih3 b h1, storeGet_storeSet_ne h2]

/-- Witness for C9 at a concrete store: one plain criterion dict and one
metacriterion dict. -/
theorem search_mutates_caller_criteria_witness :
    (metaTagLoop [[("field", PyVal.int 1)], [("field", PyVal.int 2)]] [0] [1]).2
      = [0] ++ [1] ∧
    storeGet (metaTagLoop [[("field", PyVal.int 1)], [("field", PyVal.int 2)]]
        [0] [1]).1 1
      = dinsert (storeGet [[("field", PyVal.int 1)], [("field", PyVal.int 2)]] 1)
          "meta" (.bool true) := by
  have h := search_mutates_caller_criteria
    [[("field", PyVal.int 1)], [("field", PyVal.int 2)]] [0] [1]
    (by decide) (by intro a ha; fin_cases ha; decide)
  exact ⟨h.1, h.2.1 1 (by decide)⟩

/-- C10: a successful search response (status 200 or 206) with a JSON
object body returns the value of its `data` key, and the empty list when
the body has no `data` key -- never an error. -/
theorem search_success_data_default (r : Response) (d : Dict)
    (hs : r.status = 200 ∨ r.status = 206) (hj : r.json = .dict d) :
    search_return r = .ok (dget d "data" (.list [])) ∧
    (dlookup d "data" = none → search_return r = .ok (.list [])) := by
  have h1 : search_return r = .ok (dget d "data" (.list [])) := by
    rw [search_return, if_pos hs, hj]
  refine ⟨h1, fun hn => ?_⟩
  rw [h1, dget, hn]
  rfl

/-- Witness for C10 at a 206 response whose body lacks a `data` key. -/
theorem search_success_data_default_witness :
    search_return ⟨206, .dict [("count", PyVal.int 0)], "Partial Content", ""⟩
      = .ok (.list []) :=
  (search_success_data_default
    ⟨206, .dict [("count", PyVal.int 0)], "Partial Content", ""⟩
    [("count", PyVal.int 0)] (Or.inr rfl) rfl).2 rfl
